import Mathlib

/-!
Verification of the session/limit arbitration engine and effective-time
accounting layer of the video-time-tracker browser extension.

The definitions below are a shallow embedding of the second (richer)
generation of `src/utils/storage.js`, `src/utils/sessionManager.js` and the
tab-coordination entry point `handleAddTime` of `src/background.js`.

Modelling conventions:
* JS objects / Maps keyed by strings become association lists
  (`alookup` / `aset`), which preserve insertion order and update in place,
  exactly like JS object keys.
* JS numbers carrying whole seconds or millisecond timestamps become `Int`.
* Optional / possibly-`null` numeric configuration fields become
  `Option Int`; JS truthiness (`null`, `undefined` and `0` are falsy) is
  `truthyI`.
* The clock (`Date.now()`, `getTodayKey()`, `getYesterdayKey()`,
  `getCurrentTimeMinutes()`) is a `Clock` record passed to each operation.
* `chrome.storage.local` plus the module-level `storageCache` become the
  explicit state record `St`.  Asynchronous awaits resolve sequentially in
  the extension (single service-worker event at a time), so each exported
  function is a state transformer.
* The eager-flush comparison `total >= dailyLimit * 0.95` is modelled
  exactly over the rationals as `total * 20 >= dailyLimit * 19`; the
  float rounding of `0.95 * limit` can differ from the rational value only
  in the last ulp and only decides when a flush happens, which never
  changes any merged total.
* Fields that only feed logging or UI text (reasonText, formatted strings,
  `nextAvailable` computed by calendar arithmetic) are omitted from result
  payloads; no claim mentions them.
-/

namespace VTT

/-- Lookup in an association list (JS object / `Map.get`). -/
def alookup {κ α : Type} [DecidableEq κ] : List (κ × α) → κ → Option α
  | [], _ => none
  | (k', v) :: rest, k => if k' = k then some v else alookup rest k

/-- Update / insert in an association list (JS property assignment /
`Map.set`): replaces the existing binding in place, otherwise appends. -/
def aset {κ α : Type} [DecidableEq κ] : List (κ × α) → κ → α → List (κ × α)
  | [], k, v => [(k, v)]
  | (k', v') :: rest, k, v =>
    if k' = k then (k', v) :: rest else (k', v') :: aset rest k v

/-- JS truthiness of an optional numeric field: `null` / `undefined` and
`0` are falsy, every other number is truthy. -/
def truthyI : Option Int → Bool
  | none => false
  | some v => v != 0

/-- A session record (`{ start, end, duration }`); the `end` field is named
`stop` here because `end` is a Lean keyword. -/
structure Session where
  start : Int
  stop : Option Int
  duration : Int
deriving Repr, DecidableEq

/-- Per-day, per-category usage record (`{ totalTime, sessions, byDomain }`).
A missing `byDomain` object behaves exactly like an empty one, so it is not
distinguished. -/
structure CategoryUsage where
  totalTime : Int
  sessions : List Session
  byDomain : List (String × Int)
deriving Repr, DecidableEq

def emptyCategoryUsage : CategoryUsage := ⟨0, [], []⟩

/-- Category configuration.  `forbiddenPeriods` stores each period as
(start, end) minutes from midnight, the result of `parseTimeToMinutes` on
the configured `HH:MM` strings. -/
structure Category where
  enabled : Bool
  dailyLimit : Option Int
  sessionDuration : Option Int
  sessionCount : Option Int
  restDuration : Option Int
  forbiddenPeriods : List (Int × Int)
deriving Repr, DecidableEq

/-- Per-category transient state machine snapshot.  Absent fields of the JS
object read as their falsy defaults, so they are stored denormalised. -/
structure ActiveState where
  inSession : Bool
  sessionStart : Option Int
  sessionEffectiveTime : Int
  inRest : Bool
  restEnd : Option Int
deriving Repr, DecidableEq

def defaultActiveState : ActiveState := ⟨false, none, 0, false, none⟩

abbrev DayUsage := List (String × CategoryUsage)
abbrev UsageMap := List (String × DayUsage)
abbrev CatMap := List (String × Category)

/-- The persisted storage plus the module-level `storageCache` of
`storage.js`. -/
structure St where
  usage : UsageMap
  activeState : List (String × ActiveState)
  pendingTime : List (String × Int)
  pendingDomain : List ((String × String) × Int)
  domainLimits : List (String × Int)
  cacheUsage : Option UsageMap
  lastUsageWrite : Int
deriving Repr, DecidableEq

def initSt : St := ⟨[], [], [], [], [], none, 0⟩

/-- The ambient clock: `Date.now()` in ms, minutes from local midnight, and
the local date keys for today and yesterday. -/
structure Clock where
  now : Int
  minutes : Int
  today : String
  yesterday : String
deriving Repr, DecidableEq

/-- JS `isInForbiddenPeriod`, with the current wall-clock minutes passed in;
handles overnight-wrapping ranges. -/
def isInForbiddenPeriod (currentMinutes : Int) (fps : List (Int × Int)) : Bool :=
  fps.any (fun p =>
    if p.1 > p.2 then currentMinutes ≥ p.1 || currentMinutes < p.2
    else currentMinutes ≥ p.1 && currentMinutes < p.2)

/-- JS `Math.ceil (x / 1000)` on integers (used for remaining rest seconds). -/
def ceilDiv1000 (x : Int) : Int := Int.fdiv (x + 999) 1000

/-- JS condition `limit && total >= limit` (daily-limit checks). -/
def limitReachedB (o : Option Int) (total : Int) : Bool :=
  match o with
  | some l => l != 0 && decide (l ≤ total)
  | none => false

/-! ## Effective-Time Store (`storage.js`) -/

/-- JS `getTodayUsage`: `usage[todayKey] || {}` (read-only). -/
def getTodayUsage (st : St) (today : String) : DayUsage :=
  (alookup st.usage today).getD []

/-- The value `getCategoryUsage` returns: the committed record merged with
the pending accrual for the key. -/
structure UsageView where
  totalTime : Int
  sessions : List Session
deriving Repr, DecidableEq

/-- JS `getCategoryUsage`: committed `totalTime` plus
`storageCache.pendingTimeUpdates.get(categoryKey)`. -/
def getCategoryUsage (st : St) (today key : String) : UsageView :=
  let baseUsage := (alookup (getTodayUsage st today) key).getD emptyCategoryUsage
  let pendingTime := (alookup st.pendingTime key).getD 0
  ⟨baseUsage.totalTime + pendingTime, baseUsage.sessions⟩

/-- The merged (committed plus pending) daily total for a category, exactly
as `getCategoryUsage` computes it. -/
def mergedTotal (st : St) (today key : String) : Int :=
  (getCategoryUsage st today key).totalTime

/-- One iteration of the category-level loop of `flushPendingTimeUpdates`:
create the day / category entries if missing and add the pending seconds to
the stored `totalTime`. -/
def flushCatStep (today : String) (u : UsageMap) (key : String) (s : Int) : UsageMap :=
  let day := (alookup u today).getD []
  let cu := (alookup day key).getD emptyCategoryUsage
  aset u today (aset day key { cu with totalTime := cu.totalTime + s })

/-- One iteration of the domain-level loop of `flushPendingTimeUpdates`. -/
def flushDomStep (today : String) (u : UsageMap) (key domain : String) (s : Int) : UsageMap :=
  let day := (alookup u today).getD []
  let cu := (alookup day key).getD emptyCategoryUsage
  let cur := (alookup cu.byDomain domain).getD 0
  aset u today (aset day key { cu with byDomain := aset cu.byDomain domain (cur + s) })

/-- JS `flushPendingTimeUpdates`: early return when both pending maps are
empty; otherwise write every pending increment into storage, refresh the
cache and clear the pending maps (`hasChanges` is necessarily true then). -/
def flushPendingTimeUpdates (st : St) (clock : Clock) : St :=
  if st.pendingTime = [] ∧ st.pendingDomain = [] then st
  else
    let u1 := st.pendingTime.foldl (fun u p => flushCatStep clock.today u p.1 p.2) st.usage
    let u2 := st.pendingDomain.foldl (fun u p => flushDomStep clock.today u p.1.1 p.1.2 p.2) u1
    { st with usage := u2, cacheUsage := some u2, lastUsageWrite := clock.now,
              pendingTime := [], pendingDomain := [] }

/-- JS `getCachedUsage`: re-read storage when the cache is absent or older
than 5 seconds (the refresh does not update `lastUsageWrite`). -/
def getCachedUsage (st : St) (clock : Clock) : UsageMap × St :=
  match st.cacheUsage with
  | none => (st.usage, { st with cacheUsage := some st.usage })
  | some u =>
    if clock.now - st.lastUsageWrite > 5000 then
      (st.usage, { st with cacheUsage := some st.usage })
    else (u, st)

/-- The first half of `addCategoryTime`: buffer the seconds in the pending
map, read the cached usage, and create missing day / category entries on
the cached object (the JS code mutates the shared cache object in place). -/
def addCategoryTimeMid (st : St) (clock : Clock) (key : String) (seconds : Int) : St :=
  let currentPending := (alookup st.pendingTime key).getD 0
  let st := { st with pendingTime := aset st.pendingTime key (currentPending + seconds) }
  let gc := getCachedUsage st clock
  let usage := gc.1
  let st := gc.2
  let usage := if (alookup usage clock.today).isNone then aset usage clock.today [] else usage
  let day := (alookup usage clock.today).getD []
  let usage :=
    if (alookup day key).isNone then aset usage clock.today (aset day key emptyCategoryUsage)
    else usage
  { st with cacheUsage := some usage }

/-- JS `addCategoryTime`: buffer the seconds (see `addCategoryTimeMid`),
compute the merged total from the cached entry, and flush eagerly when it
is within 5 percent of the daily limit.  Returns the merged view. -/
def addCategoryTime (cats : CatMap) (st : St) (clock : Clock) (key : String)
    (seconds : Int) : UsageView × St :=
  let st := addCategoryTimeMid st clock key seconds
  let usage := st.cacheUsage.getD []
  let cu := (alookup ((alookup usage clock.today).getD []) key).getD emptyCategoryUsage
  let pendingTime := (alookup st.pendingTime key).getD 0
  let totalWithPending := cu.totalTime + pendingTime
  let st' :=
    match alookup cats key with
    | some c =>
      match c.dailyLimit with
      | some dl =>
        if dl != 0 && decide (dl * 19 ≤ totalWithPending * 20) then
          flushPendingTimeUpdates st clock
        else st
      | none => st
    | none => st
  (⟨totalWithPending, cu.sessions⟩, st')

/-- JS `startCategorySession`: append a fresh open session record. -/
def startCategorySession (st : St) (clock : Clock) (key : String) : St :=
  let day := (alookup st.usage clock.today).getD []
  let cu := (alookup day key).getD emptyCategoryUsage
  let session : Session := ⟨clock.now, none, 0⟩
  { st with
      usage := aset st.usage clock.today
        (aset day key { cu with sessions := cu.sessions ++ [session] }) }

/-- JS `endCategorySessionForDate`: close the last session of the given date
key if it is still open (its `end` is falsy); otherwise do nothing. -/
def endCategorySessionForDate (st : St) (clock : Clock) (key dateKey : String) :
    Option Session × St :=
  match alookup st.usage dateKey with
  | none => (none, st)
  | some day =>
    match alookup day key with
    | none => (none, st)
    | some cu =>
      match cu.sessions.getLast? with
      | none => (none, st)
      | some lastSession =>
        if truthyI lastSession.stop then (none, st)
        else
          let closed : Session :=
            { lastSession with
                stop := some clock.now,
                duration := Int.fdiv (clock.now - lastSession.start) 1000 }
          ((some closed),
           { st with
               usage := aset st.usage dateKey
                 (aset day key { cu with sessions := cu.sessions.dropLast ++ [closed] }) })

/-- JS `endCategorySession`: the same, on today. -/
def endCategorySession (st : St) (clock : Clock) (key : String) : Option Session × St :=
  endCategorySessionForDate st clock key clock.today

/-! ## Active-State Store -/

/-- JS `getCategoryActiveState`: the stored record or the falsy defaults. -/
def getCategoryActiveState (st : St) (key : String) : ActiveState :=
  (alookup st.activeState key).getD defaultActiveState

/-- JS `updateCategoryActiveState`: spread a partial update over the stored
record.  Absent fields of the JS object read as the falsy defaults, so
merging into the defaulted record is extensionally the JS object spread. -/
def updActive (st : St) (key : String) (f : ActiveState → ActiveState) : St :=
  { st with activeState := aset st.activeState key (f (getCategoryActiveState st key)) }

/-- JS `clearActiveStates`. -/
def clearActiveStates (st : St) : St := { st with activeState := [] }

/-- JS `performDailyReset`: flush pending accrual, close each still-open
session into the previous day, clear all active states, drop the cache. -/
def performDailyReset (st : St) (clock : Clock) : St :=
  let st := flushPendingTimeUpdates st clock
  let entries := st.activeState
  let st := entries.foldl
    (fun st p =>
      if p.2.inSession && truthyI p.2.sessionStart then
        (endCategorySessionForDate st clock p.1 clock.yesterday).2
      else st) st
  let st := clearActiveStates st
  { st with cacheUsage := none }

/-! ## Domain-level tracking and limits -/

/-- JS `getDomainLimit` (the stored object is just `{ dailyLimit }`). -/
def getDomainLimit (st : St) (domain : String) : Option Int :=
  alookup st.domainLimits domain

/-- JS `getDomainUsage` (total only; the category key it also reports is not
used by any caller modelled here): first stored `byDomain` entry that is
truthy, plus the first matching pending domain increment. -/
def getDomainUsage (st : St) (clock : Clock) (domain : String) : Int :=
  let todayUsage := getTodayUsage st clock.today
  let stored :=
    match todayUsage.find? (fun p => truthyI (alookup p.2.byDomain domain)) with
    | some p => (alookup p.2.byDomain domain).getD 0
    | none => 0
  match st.pendingDomain.find? (fun p => p.1.2 = domain) with
  | some p => stored + p.2
  | none => stored

/-- The object `checkDomainLimit` returns when a limit is configured. -/
structure DomainCheck where
  allowed : Bool
  remaining : Int
  limit : Int
  used : Int
deriving Repr, DecidableEq

/-- JS `checkDomainLimit`. -/
def checkDomainLimit (st : St) (clock : Clock) (domain : String) : Option DomainCheck :=
  match getDomainLimit st domain with
  | none => none
  | some dl =>
    let used := getDomainUsage st clock domain
    some ⟨decide (used < dl), max 0 (dl - used), dl, used⟩

/-- JS `addDomainTime`: buffer the per-domain seconds and flush eagerly when
within 5 percent of the domain limit. -/
def addDomainTime (st : St) (clock : Clock) (key domain : String) (seconds : Int) :
    Int × St :=
  let currentPending := (alookup st.pendingDomain (key, domain)).getD 0
  let st := { st with pendingDomain := aset st.pendingDomain (key, domain) (currentPending + seconds) }
  let gc := getCachedUsage st clock
  let usage := gc.1
  let st := gc.2
  let storedTime :=
    match alookup ((alookup usage clock.today).getD []) key with
    | some cu => (alookup cu.byDomain domain).getD 0
    | none => 0
  let pendingTime := (alookup st.pendingDomain (key, domain)).getD 0
  let totalWithPending := storedTime + pendingTime
  let st :=
    match getDomainLimit st domain with
    | some dl =>
      if dl != 0 && decide (dl * 19 ≤ totalWithPending * 20) then
        flushPendingTimeUpdates st clock
      else st
    | none => st
  (totalWithPending, st)

/-! ## Session & Access Arbiter (`sessionManager.js`) -/

/-- The shapes of the decision object `canAccessCategory` returns.  Each
constructor corresponds to one `return` site (reason tag and the numeric
payload fields any modelled caller or claim reads). -/
inductive AccessResult where
  | noLimits
  | forbiddenPeriod
  | restPeriod (restRemaining : Int) (nextAvailable : Int)
  | dailyLimit (totalTime : Int) (limit : Int)
  | sessionsExhausted (sessionsUsed : Int) (sessionsTotal : Int)
  | allowedFull (inSession : Bool) (sessionRemaining dailyRemaining sessionsRemaining : Option Int)
      (totalTime : Int) (isWarning : Bool)
deriving Repr, DecidableEq

/-- The `allowed` field of the decision object. -/
def AccessResult.allowed : AccessResult → Bool
  | .noLimits => true
  | .allowedFull _ _ _ _ _ _ => true
  | _ => false

/-- Checks 3 and 4 of `canAccessCategory` (daily total, session count) and
the allowed projection.  `activeState` is the local variable read before
any lazy rest clearing, exactly as in the source. -/
def accessAfterRest (c : Category) (usage : UsageView) (activeState : ActiveState)
    (st : St) : AccessResult × St :=
  if limitReachedB c.dailyLimit usage.totalTime then
    (.dailyLimit usage.totalTime (c.dailyLimit.getD 0), st)
  else
    let completedSessions : Int := (usage.sessions.filter (fun s => truthyI s.stop)).length
    let totalSessionsUsed : Int := completedSessions + (if activeState.inSession then 1 else 0)
    let countExhausted : Bool :=
      match c.sessionCount with
      | some n => n != 0 && decide (n ≤ totalSessionsUsed) && !activeState.inSession
      | none => false
    if countExhausted then
      (.sessionsExhausted completedSessions (c.sessionCount.getD 0), st)
    else
      let dailyRemaining : Option Int :=
        match c.dailyLimit with
        | some l => if l != 0 then some (l - usage.totalTime) else none
        | none => none
      let sessionRemaining : Option Int :=
        match c.sessionDuration with
        | some d =>
          if d != 0 then
            if activeState.inSession then some (max 0 (d - activeState.sessionEffectiveTime))
            else some d
          else none
        | none => none
      let sessionsRemaining : Option Int :=
        match c.sessionCount with
        | some n => if n != 0 then some (n - totalSessionsUsed) else none
        | none => none
      let isWarning : Bool :=
        match sessionRemaining with
        | some r => decide (r ≤ 60)
        | none => false
      (.allowedFull activeState.inSession sessionRemaining dailyRemaining sessionsRemaining
         usage.totalTime isWarning, st)

/-- JS `canAccessCategory`: the strict priority order — disabled or missing
category, forbidden period, rest period (with lazy clearing of an expired
rest), then daily total and session count.  The rest clearing mutates the
stored active state but the later checks keep using the stale local. -/
def canAccessCategory (cats : CatMap) (st : St) (clock : Clock) (key : String) :
    AccessResult × St :=
  match alookup cats key with
  | none => (.noLimits, st)
  | some c =>
    if !c.enabled then (.noLimits, st)
    else
      let usage := getCategoryUsage st clock.today key
      let activeState := getCategoryActiveState st key
      if isInForbiddenPeriod clock.minutes c.forbiddenPeriods then (.forbiddenPeriod, st)
      else
        match activeState.restEnd with
        | some r =>
          if activeState.inRest && (r != 0) then
            if clock.now < r then (.restPeriod (ceilDiv1000 (r - clock.now)) r, st)
            else
              accessAfterRest c usage activeState
                (updActive st key (fun a => { a with inRest := false, restEnd := none }))
          else accessAfterRest c usage activeState st
        | none => accessAfterRest c usage activeState st

/-- The object `startSession` returns. -/
inductive StartResult where
  | denied (access : AccessResult)
  | alreadyActive
  | started (sessionStart : Int)
deriving Repr, DecidableEq

/-- JS `startSession`. -/
def startSession (cats : CatMap) (st : St) (clock : Clock) (key : String) :
    StartResult × St :=
  let ca := canAccessCategory cats st clock key
  let access := ca.1
  let st := ca.2
  if !access.allowed then (.denied access, st)
  else
    let activeState := getCategoryActiveState st key
    if activeState.inSession then (.alreadyActive, st)
    else
      let st := startCategorySession st clock key
      let st := updActive st key (fun a =>
        { a with inSession := true, sessionStart := some clock.now,
                 sessionEffectiveTime := 0, inRest := false, restEnd := none })
      (.started clock.now, st)

/-- The object `endSession` returns. -/
structure EndResult where
  success : Bool
  restStarted : Bool
  restEnd : Option Int
deriving Repr, DecidableEq

/-- JS `category?.restDuration`: the rest duration of a possibly missing
category. -/
def restDurationOf (cats : CatMap) (key : String) : Option Int :=
  match alookup cats key with
  | some c => c.restDuration
  | none => none

/-- JS `endSession`: close the open session record (if any), clear the
in-session flags, and start a rest period when requested and the category
has a truthy `restDuration`. -/
def endSession (cats : CatMap) (st : St) (clock : Clock) (key : String)
    (triggerRest : Bool) : EndResult × St :=
  let st := (endCategorySession st clock key).2
  let rd : Option Int := restDurationOf cats key
  if triggerRest && truthyI rd then
    let r := clock.now + rd.getD 0 * 1000
    let st := updActive st key (fun a =>
      { a with inSession := false, sessionStart := none, inRest := true, restEnd := some r })
    (⟨true, true, some r⟩, st)
  else
    let st := updActive st key (fun a => { a with inSession := false, sessionStart := none })
    (⟨true, false, none⟩, st)

/-- The capping step of `addEffectiveTime` (`headroom = max(0, limit -
currentTotal)` when the daily limit is a number greater than zero). -/
def cappedSeconds (c : Category) (currentTotal : Int) (seconds : Int) : Int :=
  match c.dailyLimit with
  | some dl =>
    if dl > 0 then
      let headroom := max 0 (dl - currentTotal)
      if seconds > headroom then headroom else seconds
    else seconds
  | none => seconds

/-- The shapes of the decision object `addEffectiveTime` returns.  The
`sessionLimitReached` object also carries `allowed:false`,
`sessionEnded:true` and the hard-coded `restStarted:true` of that return
site; `dailyLimitReached` carries `allowed:false` and `sessionEnded:true`. -/
inductive AddTimeResult where
  | passThrough
  | sessionLimitReached (restDuration : Option Int) (sessionEffectiveTime : Int)
  | dailyLimitReached (totalTime : Int) (dailyLimit : Int)
  | allowed (access : AccessResult) (timeAdded : Int) (newTotal : Int)
      (sessionEffectiveTime : Int)
deriving Repr, DecidableEq

/-- The session-duration guard of `addEffectiveTime`
(`category.sessionDuration && activeState.inSession` and
`sessionEffectiveTime >= category.sessionDuration`). -/
def sessionHitB (c : Category) (a : ActiveState) : Bool :=
  match c.sessionDuration with
  | some d => d != 0 && a.inSession && decide (d ≤ a.sessionEffectiveTime)
  | none => false

/-- The tail of `addEffectiveTime` after the commit: the session-duration
check (which short-circuits first), the daily-limit check, and otherwise
the fresh access projection.  `usage` is the merged view returned by
`addCategoryTime` and `activeState` the local (session-updated) record. -/
def addEffectiveTimeFinish (cats : CatMap) (st : St) (clock : Clock) (key : String)
    (c : Category) (usage : UsageView) (activeState : ActiveState)
    (secondsToAdd : Int) : AddTimeResult × St :=
  if sessionHitB c activeState then
    let st := (endSession cats st clock key true).2
    (.sessionLimitReached c.restDuration activeState.sessionEffectiveTime, st)
  else if limitReachedB c.dailyLimit usage.totalTime then
    let st := (endSession cats st clock key false).2
    (.dailyLimitReached usage.totalTime (c.dailyLimit.getD 0), st)
  else
    let ca := canAccessCategory cats st clock key
    (.allowed ca.1 secondsToAdd usage.totalTime activeState.sessionEffectiveTime, ca.2)

/-- JS `addEffectiveTime`: cap at the daily headroom, commit the capped value,
mirror it into the open session, then `addEffectiveTimeFinish`. -/
def addEffectiveTime (cats : CatMap) (st : St) (clock : Clock) (key : String)
    (seconds : Int) : AddTimeResult × St :=
  match alookup cats key with
  | none => (.passThrough, st)
  | some c =>
    if !c.enabled then (.passThrough, st)
    else
      let currentUsage := getCategoryUsage st clock.today key
      let secondsToAdd := cappedSeconds c currentUsage.totalTime seconds
      let act := addCategoryTime cats st clock key secondsToAdd
      let activeState := getCategoryActiveState act.2 key
      let upd :=
        if activeState.inSession then
          let newSessionTime := activeState.sessionEffectiveTime + secondsToAdd
          ({ activeState with sessionEffectiveTime := newSessionTime },
           updActive act.2 key (fun a => { a with sessionEffectiveTime := newSessionTime }))
        else (activeState, act.2)
      addEffectiveTimeFinish cats upd.2 clock key c act.1 upd.1 secondsToAdd

/-- One iteration of the `checkRestPeriods` loop: clear the rest period of
one category when it is expired (`inRest && restEnd && now >= restEnd`). -/
def checkRestStep (clock : Clock) (acc : List String × St) (p : String × Category) :
    List String × St :=
  let activeState := getCategoryActiveState acc.2 p.1
  match activeState.restEnd with
  | some r =>
    if activeState.inRest && (r != 0) && decide (r ≤ clock.now) then
      (acc.1 ++ [p.1],
       updActive acc.2 p.1 (fun a => { a with inRest := false, restEnd := none }))
    else acc
  | none => acc

/-- JS `checkRestPeriods`: clear every expired rest period, collecting the
keys whose rest ended. -/
def checkRestPeriods (cats : CatMap) (st : St) (clock : Clock) :
    List String × St :=
  cats.foldl (checkRestStep clock) ([], st)

/-! ## Cross-Tab Accounting Gateway (`background.js`) -/

/-- Per-category authoritative-tab record of `activeTabsPerCategory`. -/
structure TabInfo where
  tabId : Int
  lastActivity : Int
deriving Repr, DecidableEq

abbrev TabMap := List (String × TabInfo)

/-- The shapes of the object `handleAddTime` returns: the skip object
`allowed:true, skipped:true, reason not_active_tab`, the domain-limit
denial, or the forwarded `addEffectiveTime` decision. -/
inductive HandleResult where
  | skipped
  | domainLimit (domain : String) (limit : Int) (used : Int)
  | core (r : AddTimeResult)
deriving Repr, DecidableEq

/-- JS `isActiveTabForCategory`. -/
def isActiveTabForCategory (tabs : TabMap) (key : String) (senderTab : Option Int) : Bool :=
  match senderTab with
  | none => false
  | some tabId =>
    match alookup tabs key with
    | some info => decide (info.tabId = tabId)
    | none => false

/-- The accrual tail of `handleAddTime`: record domain-level time when a
domain is given, then forward to `addEffectiveTime`.  The limit broadcast
and badge update are presentation side effects with no core state. -/
def handleAddTimeAccrue (cats : CatMap) (st : St) (clock : Clock) (key : String)
    (domain : Option String) (seconds : Int) : HandleResult × St :=
  let st :=
    match domain with
    | some d => (addDomainTime st clock key d seconds).2
    | none => st
  let r := addEffectiveTime cats st clock key seconds
  (.core r.1, r.2)

/-- JS `handleAddTime` after the tab-coordination gate: the domain-specific
limit check takes priority, then the accrual tail. -/
def handleAddTimeCore (cats : CatMap) (st : St) (clock : Clock) (key : String)
    (domain : Option String) (seconds : Int) : HandleResult × St :=
  match domain with
  | some d =>
    match checkDomainLimit st clock d with
    | some chk =>
      if !chk.allowed then (.domainLimit d chk.limit chk.used, st)
      else handleAddTimeAccrue cats st clock key (some d) seconds
    | none => handleAddTimeAccrue cats st clock key (some d) seconds
  | none => handleAddTimeAccrue cats st clock key none seconds

/-- JS `handleAddTime`: a report from a tab that is not the registered
authoritative tab of its category is answered `skipped` and accrues
nothing; with no registered tab the sender takes over; a sender without a
tab id bypasses coordination. -/
def handleAddTime (cats : CatMap) (tabs : TabMap) (st : St) (clock : Clock)
    (key : String) (domain : Option String) (seconds : Int) (senderTab : Option Int) :
    HandleResult × TabMap × St :=
  let isCurrentTabActive := isActiveTabForCategory tabs key senderTab
  match senderTab with
  | none =>
    let r := handleAddTimeCore cats st clock key domain seconds
    (r.1, tabs, r.2)
  | some tabId =>
    let proceed : TabMap → HandleResult × TabMap × St := fun tabs =>
      let tabs := aset tabs key ⟨tabId, clock.now⟩
      let r := handleAddTimeCore cats st clock key domain seconds
      (r.1, tabs, r.2)
    if isCurrentTabActive then proceed tabs
    else
      match alookup tabs key with
      | none => proceed (aset tabs key ⟨tabId, clock.now⟩)
      | some _ => (.skipped, tabs, st)

/-! ## Derived notions used by the claims -/

/-- The keys of an association list are pairwise distinct (always true of a
JS object or Map, and preserved by every operation modelled here). -/
def NodupKeys {κ α : Type} (l : List (κ × α)) : Prop := (l.map Prod.fst).Nodup

/-- The total of the increments an association list carries for one key. -/
def sumAt {κ : Type} [DecidableEq κ] : List (κ × Int) → κ → Int
  | [], _ => 0
  | p :: rest, k => (if p.1 = k then p.2 else 0) + sumAt rest k

/-- The committed (storage-only) daily total of a category. -/
def committedTotal (u : UsageMap) (today key : String) : Int :=
  ((alookup ((alookup u today).getD []) key).getD emptyCategoryUsage).totalTime

/-- One `addEffectiveTime` call, for any category, any clock sharing the
same date key, and a non-negative reported quantity. -/
def AddStep (cats : CatMap) (today : String) (s1 s2 : St) : Prop :=
  ∃ key seconds clock, clock.today = today ∧ 0 ≤ seconds ∧
    s2 = (addEffectiveTime cats s1 clock key seconds).2

/-- The invariant: no category is simultaneously in a session and in a
rest period. -/
def MutexInv (st : St) : Prop :=
  ∀ key : String, (getCategoryActiveState st key).inSession = false ∨
    (getCategoryActiveState st key).inRest = false

/-- One mutating operation of the core: session start / end, effective
time accrual, an access check (with its lazy rest clearing), the periodic
rest sweep, or the daily reset. -/
inductive CoreStep (cats : CatMap) (st : St) : St → Prop where
  | start (clock : Clock) (key : String) :
      CoreStep cats st (startSession cats st clock key).2
  | stop (clock : Clock) (key : String) (tr : Bool) :
      CoreStep cats st (endSession cats st clock key tr).2
  | add (clock : Clock) (key : String) (seconds : Int) :
      CoreStep cats st (addEffectiveTime cats st clock key seconds).2
  | access (clock : Clock) (key : String) :
      CoreStep cats st (canAccessCategory cats st clock key).2
  | rests (clock : Clock) :
      CoreStep cats st (checkRestPeriods cats st clock).2
  | reset (clock : Clock) :
      CoreStep cats st (performDailyReset st clock)

/-- Whether the last session record of a list is still open (has a falsy
`end`), which is exactly the condition under which `endCategorySession`
writes anything. -/
def lastOpenB (sessions : List Session) : Bool :=
  match sessions.getLast? with
  | some s => !(truthyI s.stop)
  | none => false

/-! ## Concrete fixtures for the claim witnesses -/

def catsC1 : CatMap := [("video", ⟨true, some 100, none, none, none, []⟩)]

def clockC1 : Clock := ⟨1000, 600, "d1", "d0"⟩

def catsC2 : CatMap := [("video", ⟨true, none, none, none, none, []⟩)]

def stC2 : St := { initSt with usage := [("d1", [("video", ⟨10, [], []⟩)])] }

def clockC2 : Clock := ⟨1000, 600, "d1", "d0"⟩

def catsC5 : CatMap := [("video", ⟨true, some 3600, some 1800, none, some 600, []⟩)]

def stC5 : St := { initSt with usage := [("d1", [("video", ⟨3598, [], []⟩)])] }

def clockC5 : Clock := ⟨1000000, 600, "d1", "d0"⟩

def catsC3 : CatMap := [("video", ⟨true, some 3600, some 1800, none, some 600, []⟩)]

def stC3 : St := { initSt with
  usage := [("d1", [("video", ⟨100, [⟨500, none, 0⟩], []⟩)])],
  activeState := [("video", ⟨true, some 500, 1795, false, none⟩)] }

def clockC3 : Clock := ⟨1000000, 600, "d1", "d0"⟩

def catsC4 : CatMap := [("video", ⟨true, some 1900, some 1800, none, some 600, []⟩)]

def stC4 : St := { initSt with
  usage := [("d1", [("video", ⟨95, [⟨500, none, 0⟩], []⟩)])],
  activeState := [("video", ⟨true, some 500, 1795, false, none⟩)] }

def clockC4 : Clock := ⟨1000000, 600, "d1", "d0"⟩

def catsC7 : CatMap := [("video", ⟨true, some 3600, some 1800, none, some 600, []⟩)]

def tabsC7 : TabMap := [("video", ⟨1, 999000⟩)]

def stC7 : St := { initSt with usage := [("d1", [("video", ⟨50, [], []⟩)])] }

def clockC7 : Clock := ⟨1000000, 600, "d1", "d0"⟩

def catsC8 : CatMap := [("video", ⟨true, some 3600, some 1800, some 4, some 600, []⟩)]

def stC8 : St := { initSt with
  activeState := [("video", ⟨false, none, 0, true, some 1120000⟩)] }

def clockC8 : Clock := ⟨1000000, 600, "d1", "d0"⟩

def clockC8b : Clock := ⟨1200000, 600, "d1", "d0"⟩

def catsC10 : CatMap := [("video", ⟨true, some 3600, some 1800, none, some 600, []⟩)]

def stC10 : St := { initSt with
  usage := [("d1", [("video", ⟨5, [⟨100, some 200, 0⟩], []⟩)])] }

def clockC10 : Clock := ⟨1000000, 600, "d1", "d0"⟩

/-! ## Association-list laws -/

theorem alookup_aset_self {κ α : Type} [DecidableEq κ] (m : List (κ × α)) (k : κ) (v : α) :
    alookup (aset m k v) k = some v := by
  induction m with
  | nil => simp [aset, alookup]
  | cons p rest ih =>
    obtain ⟨pk, pv⟩ := p
    by_cases h : pk = k
    · simp [aset, alookup, h]
    · simp [aset, alookup, h, ih]

theorem alookup_aset_ne {κ α : Type} [DecidableEq κ] (m : List (κ × α)) {k k' : κ} (v : α)
    (h : k' ≠ k) : alookup (aset m k' v) k = alookup m k := by
  induction m with
  | nil => simp [aset, alookup, h]
  | cons p rest ih =>
    obtain ⟨pk, pv⟩ := p
    by_cases hp : pk = k'
    · subst hp
      simp [aset, alookup, h]
    · by_cases hk : pk = k
      · simp [aset, alookup, hp, hk, Ne.symm h]
      · simp [aset, alookup, hp, hk, ih]

theorem nodupKeys_nil {κ α : Type} : NodupKeys ([] : List (κ × α)) := by
  simp [NodupKeys]

theorem mem_keys_aset {κ α : Type} [DecidableEq κ] (m : List (κ × α)) (k : κ) (v : α) (a : κ) :
    a ∈ (aset m k v).map Prod.fst ↔ a ∈ m.map Prod.fst ∨ a = k := by
  induction m with
  | nil => simp [aset]
  | cons p rest ih =>
    obtain ⟨pk, pv⟩ := p
    by_cases hp : pk = k
    · subst hp
      simp [aset]
      tauto
    · simp [aset, hp, ih]
      tauto

theorem nodupKeys_aset {κ α : Type} [DecidableEq κ] {m : List (κ × α)} (k : κ) (v : α)
    (h : NodupKeys m) : NodupKeys (aset m k v) := by
  induction m with
  | nil => simp [NodupKeys, aset]
  | cons p rest ih =>
    obtain ⟨pk, pv⟩ := p
    simp only [NodupKeys, List.map_cons, List.nodup_cons] at h
    by_cases hp : pk = k
    · subst hp
      simpa [NodupKeys, aset] using h
    · have h1 := ih h.2
      simp only [NodupKeys, aset, if_neg hp, List.map_cons, List.nodup_cons]
      refine ⟨?_, h1⟩
      intro hmem
      rcases (mem_keys_aset rest k v pk).1 hmem with h2 | h2
      · exact h.1 h2
      · exact hp h2

theorem sumAt_eq_zero_of_not_mem {κ : Type} [DecidableEq κ] {l : List (κ × Int)} {k : κ}
    (h : k ∉ l.map Prod.fst) : sumAt l k = 0 := by
  induction l with
  | nil => rfl
  | cons p rest ih =>
    obtain ⟨pk, pv⟩ := p
    simp only [List.map_cons, List.mem_cons] at h
    push_neg at h
    have hne : pk ≠ k := fun hp => h.1 hp.symm
    simp [sumAt, hne, ih h.2]

theorem sumAt_eq_alookup {κ : Type} [DecidableEq κ] {l : List (κ × Int)} (k : κ)
    (h : NodupKeys l) : sumAt l k = (alookup l k).getD 0 := by
  induction l with
  | nil => rfl
  | cons p rest ih =>
    obtain ⟨pk, pv⟩ := p
    simp only [NodupKeys, List.map_cons, List.nodup_cons] at h
    by_cases hp : pk = k
    · subst hp
      have h0 : sumAt rest pk = 0 := sumAt_eq_zero_of_not_mem h.1
      simp [sumAt, alookup, h0]
    · simp [sumAt, alookup, hp, ih h.2]

/-! ## Accounting lemmas: the merged total through the storage layer -/

theorem mergedTotal_eq (st : St) (today key : String) :
    mergedTotal st today key =
      committedTotal st.usage today key + (alookup st.pendingTime key).getD 0 := rfl

theorem committedTotal_flushCatStep (u : UsageMap) (today key k : String) (s : Int) :
    committedTotal (flushCatStep today u k s) today key =
      committedTotal u today key + (if k = key then s else 0) := by
  unfold committedTotal flushCatStep
  rw [alookup_aset_self]
  simp only [Option.getD_some]
  by_cases hk : k = key
  · subst hk
    rw [alookup_aset_self]
    simp
  · rw [alookup_aset_ne _ _ hk]
    simp [hk]

theorem committedTotal_flushDomStep (u : UsageMap) (today key k d : String) (s : Int) :
    committedTotal (flushDomStep today u k d s) today key =
      committedTotal u today key := by
  unfold committedTotal flushDomStep
  rw [alookup_aset_self]
  simp only [Option.getD_some]
  by_cases hk : k = key
  · subst hk
    rw [alookup_aset_self]
    simp
  · rw [alookup_aset_ne _ _ hk]

theorem committedTotal_flushCatFold (l : List (String × Int)) (u : UsageMap)
    (today key : String) :
    committedTotal (l.foldl (fun u p => flushCatStep today u p.1 p.2) u) today key =
      committedTotal u today key + sumAt l key := by
  induction l generalizing u with
  | nil => simp [sumAt]
  | cons p rest ih =>
    simp only [List.foldl_cons, sumAt, ih, committedTotal_flushCatStep]
    ring

theorem committedTotal_flushDomFold (l : List ((String × String) × Int)) (u : UsageMap)
    (today key : String) :
    committedTotal (l.foldl (fun u p => flushDomStep today u p.1.1 p.1.2 p.2) u) today key =
      committedTotal u today key := by
  induction l generalizing u with
  | nil => rfl
  | cons p rest ih => simp only [List.foldl_cons, ih, committedTotal_flushDomStep]

/-- Flushing never changes any merged total (for the day it writes to). -/
theorem mergedTotal_flush (st : St) (clock : Clock) (key : String)
    (hN : NodupKeys st.pendingTime) :
    mergedTotal (flushPendingTimeUpdates st clock) clock.today key =
      mergedTotal st clock.today key := by
  unfold flushPendingTimeUpdates
  by_cases hemp : st.pendingTime = [] ∧ st.pendingDomain = []
  · rw [if_pos hemp]
  · rw [if_neg hemp]
    simp only [mergedTotal_eq]
    simp only [committedTotal_flushDomFold, committedTotal_flushCatFold]
    rw [sumAt_eq_alookup _ hN]
    simp [alookup]

theorem flush_activeState (st : St) (clock : Clock) :
    (flushPendingTimeUpdates st clock).activeState = st.activeState := by
  unfold flushPendingTimeUpdates
  split <;> rfl

theorem flush_domainLimits (st : St) (clock : Clock) :
    (flushPendingTimeUpdates st clock).domainLimits = st.domainLimits := by
  unfold flushPendingTimeUpdates
  split <;> rfl

theorem flush_pendingTime_nodup (st : St) (clock : Clock)
    (hN : NodupKeys st.pendingTime) :
    NodupKeys (flushPendingTimeUpdates st clock).pendingTime := by
  unfold flushPendingTimeUpdates
  split
  · exact hN
  · exact nodupKeys_nil

/-- The updated state `getCachedUsage` returns only refreshes the cache. -/
theorem getCachedUsage_snd (st : St) (clock : Clock) :
    (getCachedUsage st clock).2 = { st with cacheUsage := (getCachedUsage st clock).2.cacheUsage } := by
  unfold getCachedUsage
  cases h : st.cacheUsage
  · rfl
  · dsimp only
    split
    · rfl
    · cases st
      simp_all

theorem getCachedUsage_usage (st : St) (clock : Clock) :
    (getCachedUsage st clock).2.usage = st.usage := by
  rw [getCachedUsage_snd]

theorem getCachedUsage_activeState (st : St) (clock : Clock) :
    (getCachedUsage st clock).2.activeState = st.activeState := by
  rw [getCachedUsage_snd]

theorem getCachedUsage_pendingTime (st : St) (clock : Clock) :
    (getCachedUsage st clock).2.pendingTime = st.pendingTime := by
  rw [getCachedUsage_snd]

theorem getCachedUsage_pendingDomain (st : St) (clock : Clock) :
    (getCachedUsage st clock).2.pendingDomain = st.pendingDomain := by
  rw [getCachedUsage_snd]

theorem getCachedUsage_domainLimits (st : St) (clock : Clock) :
    (getCachedUsage st clock).2.domainLimits = st.domainLimits := by
  rw [getCachedUsage_snd]

theorem getCachedUsage_lastUsageWrite (st : St) (clock : Clock) :
    (getCachedUsage st clock).2.lastUsageWrite = st.lastUsageWrite := by
  rw [getCachedUsage_snd]

/-- The merged total only looks at `usage` and `pendingTime`. -/
theorem mergedTotal_congr {st st' : St} (today key : String)
    (hu : st'.usage = st.usage) (hp : st'.pendingTime = st.pendingTime) :
    mergedTotal st' today key = mergedTotal st today key := by
  simp [mergedTotal_eq, hu, hp]

theorem addCategoryTimeMid_usage (st : St) (clock : Clock) (key : String) (s : Int) :
    (addCategoryTimeMid st clock key s).usage = st.usage := by
  unfold addCategoryTimeMid
  dsimp only
  exact getCachedUsage_usage _ _

theorem addCategoryTimeMid_activeState (st : St) (clock : Clock) (key : String) (s : Int) :
    (addCategoryTimeMid st clock key s).activeState = st.activeState := by
  unfold addCategoryTimeMid
  dsimp only
  exact getCachedUsage_activeState _ _

theorem addCategoryTimeMid_pendingTime (st : St) (clock : Clock) (key : String) (s : Int) :
    (addCategoryTimeMid st clock key s).pendingTime =
      aset st.pendingTime key ((alookup st.pendingTime key).getD 0 + s) := by
  unfold addCategoryTimeMid
  dsimp only
  exact getCachedUsage_pendingTime _ _

theorem addCategoryTimeMid_pendingDomain (st : St) (clock : Clock) (key : String) (s : Int) :
    (addCategoryTimeMid st clock key s).pendingDomain = st.pendingDomain := by
  unfold addCategoryTimeMid
  dsimp only
  exact getCachedUsage_pendingDomain _ _

theorem addCategoryTimeMid_domainLimits (st : St) (clock : Clock) (key : String) (s : Int) :
    (addCategoryTimeMid st clock key s).domainLimits = st.domainLimits := by
  unfold addCategoryTimeMid
  dsimp only
  exact getCachedUsage_domainLimits _ _

/-- The state `addCategoryTime` returns is the buffered state, flushed or
not. -/
theorem addCategoryTime_snd_cases (cats : CatMap) (st : St) (clock : Clock)
    (key : String) (s : Int) :
    (addCategoryTime cats st clock key s).2 = addCategoryTimeMid st clock key s ∨
    (addCategoryTime cats st clock key s).2 =
      flushPendingTimeUpdates (addCategoryTimeMid st clock key s) clock := by
  unfold addCategoryTime
  dsimp only
  split
  · split
    · split
      · exact Or.inr rfl
      · exact Or.inl rfl
    · exact Or.inl rfl
  · exact Or.inl rfl

theorem addCategoryTime_activeState (cats : CatMap) (st : St) (clock : Clock)
    (key : String) (s : Int) :
    (addCategoryTime cats st clock key s).2.activeState = st.activeState := by
  rcases addCategoryTime_snd_cases cats st clock key s with h | h <;> rw [h]
  · exact addCategoryTimeMid_activeState _ _ _ _
  · rw [flush_activeState]
    exact addCategoryTimeMid_activeState _ _ _ _

theorem addCategoryTime_merged (cats : CatMap) (st : St) (clock : Clock)
    (key : String) (s : Int) (hN : NodupKeys st.pendingTime) (k2 : String) :
    mergedTotal (addCategoryTime cats st clock key s).2 clock.today k2 =
      mergedTotal st clock.today k2 + (if key = k2 then s else 0) := by
  have base : mergedTotal (addCategoryTimeMid st clock key s) clock.today k2 =
      mergedTotal st clock.today k2 + (if key = k2 then s else 0) := by
    rw [mergedTotal_eq, mergedTotal_eq, addCategoryTimeMid_usage,
      addCategoryTimeMid_pendingTime]
    by_cases hk : key = k2
    · subst hk
      rw [alookup_aset_self]
      simp
      ring
    · rw [alookup_aset_ne _ _ hk]
      simp [hk]
  have hN' : NodupKeys (addCategoryTimeMid st clock key s).pendingTime := by
    rw [addCategoryTimeMid_pendingTime]
    exact nodupKeys_aset _ _ hN
  rcases addCategoryTime_snd_cases cats st clock key s with h | h <;> rw [h]
  · exact base
  · rw [mergedTotal_flush _ _ _ hN']
    exact base

theorem addCategoryTime_nodup (cats : CatMap) (st : St) (clock : Clock)
    (key : String) (s : Int) (hN : NodupKeys st.pendingTime) :
    NodupKeys (addCategoryTime cats st clock key s).2.pendingTime := by
  have hN' : NodupKeys (addCategoryTimeMid st clock key s).pendingTime := by
    rw [addCategoryTimeMid_pendingTime]
    exact nodupKeys_aset _ _ hN
  rcases addCategoryTime_snd_cases cats st clock key s with h | h <;> rw [h]
  · exact hN'
  · exact flush_pendingTime_nodup _ _ hN'

/-! ## Active-state lemmas -/

theorem updActive_usage (st : St) (k : String) (f : ActiveState → ActiveState) :
    (updActive st k f).usage = st.usage := rfl

theorem updActive_pendingTime (st : St) (k : String) (f : ActiveState → ActiveState) :
    (updActive st k f).pendingTime = st.pendingTime := rfl

theorem mergedTotal_updActive (st : St) (k : String) (f : ActiveState → ActiveState)
    (today key : String) :
    mergedTotal (updActive st k f) today key = mergedTotal st today key := rfl

theorem getActive_updActive_self (st : St) (k : String) (f : ActiveState → ActiveState) :
    getCategoryActiveState (updActive st k f) k = f (getCategoryActiveState st k) := by
  unfold getCategoryActiveState updActive
  dsimp only
  rw [alookup_aset_self]
  rfl

theorem getActive_updActive_ne (st : St) (k : String) (f : ActiveState → ActiveState)
    {k2 : String} (h : k ≠ k2) :
    getCategoryActiveState (updActive st k f) k2 = getCategoryActiveState st k2 := by
  unfold getCategoryActiveState updActive
  dsimp only
  rw [alookup_aset_ne _ _ h]

theorem endCategorySessionForDate_activeState (st : St) (clock : Clock) (key dateKey : String) :
    (endCategorySessionForDate st clock key dateKey).2.activeState = st.activeState := by
  unfold endCategorySessionForDate
  split
  · rfl
  · split
    · rfl
    · split
      · rfl
      · split
        · rfl
        · rfl

theorem endCategorySessionForDate_pendingTime (st : St) (clock : Clock) (key dateKey : String) :
    (endCategorySessionForDate st clock key dateKey).2.pendingTime = st.pendingTime := by
  unfold endCategorySessionForDate
  split
  · rfl
  · split
    · rfl
    · split
      · rfl
      · split
        · rfl
        · rfl

theorem endCategorySessionForDate_pendingDomain (st : St) (clock : Clock) (key dateKey : String) :
    (endCategorySessionForDate st clock key dateKey).2.pendingDomain = st.pendingDomain := by
  unfold endCategorySessionForDate
  split
  · rfl
  · split
    · rfl
    · split
      · rfl
      · split
        · rfl
        · rfl

theorem committedTotal_aset_sessions (u : UsageMap) (dateKey k : String)
    (day : DayUsage) (cu : CategoryUsage) (newSessions : List Session)
    (hday : alookup u dateKey = some day) (hcu : alookup day k = some cu)
    (today key : String) :
    committedTotal (aset u dateKey (aset day k { cu with sessions := newSessions }))
        today key =
      committedTotal u today key := by
  unfold committedTotal
  by_cases hd : dateKey = today
  · subst hd
    rw [alookup_aset_self, hday]
    simp only [Option.getD_some]
    by_cases hk : k = key
    · subst hk
      rw [alookup_aset_self, hcu]
      simp
    · rw [alookup_aset_ne _ _ hk]
  · rw [alookup_aset_ne _ _ hd]

theorem mergedTotal_endCategorySessionForDate (st : St) (clock : Clock)
    (key dateKey today k2 : String) :
    mergedTotal (endCategorySessionForDate st clock key dateKey).2 today k2 =
      mergedTotal st today k2 := by
  unfold endCategorySessionForDate
  split
  · rfl
  · rename_i day hday
    split
    · rfl
    · rename_i cu hcu
      split
      · rfl
      · split
        · rfl
        · rw [mergedTotal_eq, mergedTotal_eq]
          dsimp only
          rw [committedTotal_aset_sessions st.usage dateKey key day cu _ hday hcu]

/-! ## Arbiter state-shape lemmas -/

theorem accessAfterRest_snd (c : Category) (u : UsageView) (a : ActiveState) (st : St) :
    (accessAfterRest c u a st).2 = st := by
  unfold accessAfterRest
  dsimp only
  repeat (first | rfl | split)

/-- JS `canAccessCategory` either leaves the state alone or lazily clears an
expired rest period. -/
theorem canAccess_snd_cases (cats : CatMap) (st : St) (clock : Clock) (key : String) :
    (canAccessCategory cats st clock key).2 = st ∨
    (canAccessCategory cats st clock key).2 =
      updActive st key (fun a => { a with inRest := false, restEnd := none }) := by
  unfold canAccessCategory
  dsimp only
  split
  · exact Or.inl rfl
  · split
    · exact Or.inl rfl
    · split
      · exact Or.inl rfl
      · split
        · split
          · split
            · exact Or.inl rfl
            · exact Or.inr (accessAfterRest_snd _ _ _ _)
          · exact Or.inl (accessAfterRest_snd _ _ _ _)
        · exact Or.inl (accessAfterRest_snd _ _ _ _)

theorem mergedTotal_canAccess (cats : CatMap) (st : St) (clock : Clock) (key : String)
    (today k2 : String) :
    mergedTotal (canAccessCategory cats st clock key).2 today k2 =
      mergedTotal st today k2 := by
  rcases canAccess_snd_cases cats st clock key with h | h <;> rw [h]
  rfl

theorem canAccess_pendingTime (cats : CatMap) (st : St) (clock : Clock) (key : String) :
    (canAccessCategory cats st clock key).2.pendingTime = st.pendingTime := by
  rcases canAccess_snd_cases cats st clock key with h | h <;> rw [h]
  rfl

theorem canAccess_inSession (cats : CatMap) (st : St) (clock : Clock) (key k2 : String) :
    (getCategoryActiveState (canAccessCategory cats st clock key).2 k2).inSession =
      (getCategoryActiveState st k2).inSession := by
  rcases canAccess_snd_cases cats st clock key with h | h <;> rw [h]
  by_cases hk : key = k2
  · subst hk
    rw [getActive_updActive_self]
  · rw [getActive_updActive_ne _ _ _ hk]

theorem canAccess_sessionEffectiveTime (cats : CatMap) (st : St) (clock : Clock)
    (key k2 : String) :
    (getCategoryActiveState (canAccessCategory cats st clock key).2 k2).sessionEffectiveTime =
      (getCategoryActiveState st k2).sessionEffectiveTime := by
  rcases canAccess_snd_cases cats st clock key with h | h <;> rw [h]
  by_cases hk : key = k2
  · subst hk
    rw [getActive_updActive_self]
  · rw [getActive_updActive_ne _ _ _ hk]

theorem canAccess_inRest_imp (cats : CatMap) (st : St) (clock : Clock) (key k2 : String)
    (h : (getCategoryActiveState (canAccessCategory cats st clock key).2 k2).inRest = true) :
    (getCategoryActiveState st k2).inRest = true := by
  rcases canAccess_snd_cases cats st clock key with hc | hc <;> rw [hc] at h
  · exact h
  · by_cases hk : key = k2
    · subst hk
      rw [getActive_updActive_self] at h
      exact absurd h (by simp)
    · rwa [getActive_updActive_ne _ _ _ hk] at h

theorem endCategorySession_activeState (st : St) (clock : Clock) (key : String) :
    (endCategorySession st clock key).2.activeState = st.activeState :=
  endCategorySessionForDate_activeState st clock key clock.today

theorem endCategorySession_pendingTime (st : St) (clock : Clock) (key : String) :
    (endCategorySession st clock key).2.pendingTime = st.pendingTime :=
  endCategorySessionForDate_pendingTime st clock key clock.today

theorem mergedTotal_endCategorySession (st : St) (clock : Clock) (key today k2 : String) :
    mergedTotal (endCategorySession st clock key).2 today k2 = mergedTotal st today k2 :=
  mergedTotal_endCategorySessionForDate st clock key clock.today today k2

theorem getActive_endCategorySession (st : St) (clock : Clock) (key k2 : String) :
    getCategoryActiveState (endCategorySession st clock key).2 k2 =
      getCategoryActiveState st k2 := by
  unfold getCategoryActiveState
  rw [endCategorySession_activeState]

/-- The state `endSession` produces: close the session record, then clear
the in-session flags, optionally starting a rest. -/
theorem endSession_snd_cases (cats : CatMap) (st : St) (clock : Clock) (key : String)
    (tr : Bool) :
    (∃ r : Int, (endSession cats st clock key tr).2 =
        updActive (endCategorySession st clock key).2 key
          (fun a => { a with inSession := false, sessionStart := none,
                             inRest := true, restEnd := some r })) ∨
    (endSession cats st clock key tr).2 =
      updActive (endCategorySession st clock key).2 key
        (fun a => { a with inSession := false, sessionStart := none }) := by
  unfold endSession
  dsimp only
  by_cases h : (tr && truthyI (restDurationOf cats key)) = true
  · rw [if_pos h]
    exact Or.inl ⟨_, rfl⟩
  · rw [if_neg h]
    exact Or.inr rfl

theorem endSession_inSession (cats : CatMap) (st : St) (clock : Clock) (key : String)
    (tr : Bool) :
    (getCategoryActiveState (endSession cats st clock key tr).2 key).inSession = false := by
  rcases endSession_snd_cases cats st clock key tr with ⟨r, h⟩ | h <;> rw [h] <;>
    rw [getActive_updActive_self]

theorem endSession_getActive_ne (cats : CatMap) (st : St) (clock : Clock) (key : String)
    (tr : Bool) {k2 : String} (hk : key ≠ k2) :
    getCategoryActiveState (endSession cats st clock key tr).2 k2 =
      getCategoryActiveState st k2 := by
  rcases endSession_snd_cases cats st clock key tr with ⟨r, h⟩ | h <;> rw [h] <;>
    rw [getActive_updActive_ne _ _ _ hk] <;>
    exact getActive_endCategorySession st clock key k2

theorem mergedTotal_endSession (cats : CatMap) (st : St) (clock : Clock) (key : String)
    (tr : Bool) (today k2 : String) :
    mergedTotal (endSession cats st clock key tr).2 today k2 =
      mergedTotal st today k2 := by
  rcases endSession_snd_cases cats st clock key tr with ⟨r, h⟩ | h <;> rw [h] <;>
    rw [mergedTotal_updActive] <;>
    exact mergedTotal_endCategorySession st clock key today k2

theorem endSession_pendingTime (cats : CatMap) (st : St) (clock : Clock) (key : String)
    (tr : Bool) :
    (endSession cats st clock key tr).2.pendingTime = st.pendingTime := by
  rcases endSession_snd_cases cats st clock key tr with ⟨r, h⟩ | h <;> rw [h] <;>
    rw [updActive_pendingTime] <;>
    exact endCategorySession_pendingTime st clock key

/-! ## `addEffectiveTime` execution lemmas -/

theorem addEffectiveTimeFinish_snd_cases (cats : CatMap) (st : St) (clock : Clock)
    (key : String) (c : Category) (u : UsageView) (a : ActiveState) (sA : Int) :
    (addEffectiveTimeFinish cats st clock key c u a sA).2 = (endSession cats st clock key true).2 ∨
    (addEffectiveTimeFinish cats st clock key c u a sA).2 = (endSession cats st clock key false).2 ∨
    (addEffectiveTimeFinish cats st clock key c u a sA).2 = (canAccessCategory cats st clock key).2 := by
  unfold addEffectiveTimeFinish
  dsimp only
  split
  · exact Or.inl rfl
  · split
    · exact Or.inr (Or.inl rfl)
    · exact Or.inr (Or.inr rfl)

theorem mergedTotal_addEffectiveTimeFinish (cats : CatMap) (st : St) (clock : Clock)
    (key : String) (c : Category) (u : UsageView) (a : ActiveState) (sA : Int)
    (today k2 : String) :
    mergedTotal (addEffectiveTimeFinish cats st clock key c u a sA).2 today k2 =
      mergedTotal st today k2 := by
  rcases addEffectiveTimeFinish_snd_cases cats st clock key c u a sA with h | h | h <;> rw [h]
  · exact mergedTotal_endSession cats st clock key true today k2
  · exact mergedTotal_endSession cats st clock key false today k2
  · exact mergedTotal_canAccess cats st clock key today k2

theorem addEffectiveTimeFinish_pendingTime (cats : CatMap) (st : St) (clock : Clock)
    (key : String) (c : Category) (u : UsageView) (a : ActiveState) (sA : Int) :
    (addEffectiveTimeFinish cats st clock key c u a sA).2.pendingTime = st.pendingTime := by
  rcases addEffectiveTimeFinish_snd_cases cats st clock key c u a sA with h | h | h <;> rw [h]
  · exact endSession_pendingTime cats st clock key true
  · exact endSession_pendingTime cats st clock key false
  · exact canAccess_pendingTime cats st clock key

/-- When the session-duration guard fires, `addEffectiveTimeFinish` ends
the session with `triggerRest = true` and returns the
`session_limit_reached` denial. -/
theorem addEffectiveTimeFinish_hit (cats : CatMap) (st : St) (clock : Clock)
    (key : String) (c : Category) (u : UsageView) (a : ActiveState) (sA : Int)
    (h : sessionHitB c a = true) :
    addEffectiveTimeFinish cats st clock key c u a sA =
      (.sessionLimitReached c.restDuration a.sessionEffectiveTime,
       (endSession cats st clock key true).2) := by
  unfold addEffectiveTimeFinish
  rw [if_pos h]

theorem addEffectiveTimeFinish_nohit (cats : CatMap) (st : St) (clock : Clock)
    (key : String) (c : Category) (u : UsageView) (a : ActiveState) (sA : Int)
    (h : sessionHitB c a = false) :
    addEffectiveTimeFinish cats st clock key c u a sA =
      (if limitReachedB c.dailyLimit u.totalTime then
        (.dailyLimitReached u.totalTime (c.dailyLimit.getD 0),
         (endSession cats st clock key false).2)
       else
        (.allowed (canAccessCategory cats st clock key).1 sA u.totalTime
           a.sessionEffectiveTime,
         (canAccessCategory cats st clock key).2)) := by
  unfold addEffectiveTimeFinish
  rw [h]
  simp only [Bool.false_eq_true, if_false]

theorem getActive_addCategoryTime (cats : CatMap) (st : St) (clock : Clock)
    (key : String) (s : Int) (k2 : String) :
    getCategoryActiveState (addCategoryTime cats st clock key s).2 k2 =
      getCategoryActiveState st k2 := by
  unfold getCategoryActiveState
  rw [addCategoryTime_activeState]

/-- Unfolding `addEffectiveTime` for an enabled category. -/
theorem addEffectiveTime_eq (cats : CatMap) (st : St) (clock : Clock) (key : String)
    (seconds : Int) (c : Category) (hc : alookup cats key = some c)
    (he : c.enabled = true) :
    addEffectiveTime cats st clock key seconds =
      (let secondsToAdd := cappedSeconds c (mergedTotal st clock.today key) seconds
       let act := addCategoryTime cats st clock key secondsToAdd
       let a0 := getCategoryActiveState st key
       let upd :=
         if a0.inSession then
           ({ a0 with sessionEffectiveTime := a0.sessionEffectiveTime + secondsToAdd },
            updActive act.2 key
              (fun a => { a with sessionEffectiveTime := a0.sessionEffectiveTime + secondsToAdd }))
         else (a0, act.2)
       addEffectiveTimeFinish cats upd.2 clock key c act.1 upd.1 secondsToAdd) := by
  unfold addEffectiveTime
  rw [hc]
  dsimp only
  simp only [he, Bool.not_true, Bool.false_eq_true, if_false]
  rw [getActive_addCategoryTime]
  rfl

theorem bool_eq_false_of_ne_true {b : Bool} (h : ¬b = true) : b = false := by
  cases b
  · rfl
  · exact absurd rfl h

/-- The merged daily total after one `addEffectiveTime` call: unchanged
unless the call hits an enabled category, in which case the capped seconds
are added at that key. -/
theorem mergedTotal_addEffectiveTime (cats : CatMap) (st : St) (clock : Clock)
    (key : String) (s : Int) (hN : NodupKeys st.pendingTime) (k2 : String) :
    mergedTotal (addEffectiveTime cats st clock key s).2 clock.today k2 =
      mergedTotal st clock.today k2 +
        (match alookup cats key with
         | some c =>
           if c.enabled = true ∧ key = k2 then
             cappedSeconds c (mergedTotal st clock.today key) s
           else 0
         | none => 0) := by
  cases hc : alookup cats key with
  | none =>
    unfold addEffectiveTime
    rw [hc]
    simp
  | some c =>
    by_cases he : c.enabled = true
    · rw [addEffectiveTime_eq cats st clock key s c hc he]
      dsimp only
      rw [mergedTotal_addEffectiveTimeFinish]
      split
      · rw [mergedTotal_updActive,
          addCategoryTime_merged cats st clock key _ hN k2]
        simp [he]
      · rw [addCategoryTime_merged cats st clock key _ hN k2]
        simp [he]
    · have he' : c.enabled = false := bool_eq_false_of_ne_true he
      unfold addEffectiveTime
      rw [hc]
      dsimp only
      simp [he']

theorem addEffectiveTime_nodup (cats : CatMap) (st : St) (clock : Clock)
    (key : String) (s : Int) (hN : NodupKeys st.pendingTime) :
    NodupKeys (addEffectiveTime cats st clock key s).2.pendingTime := by
  cases hc : alookup cats key with
  | none =>
    unfold addEffectiveTime
    rw [hc]
    exact hN
  | some c =>
    by_cases he : c.enabled = true
    · rw [addEffectiveTime_eq cats st clock key s c hc he]
      dsimp only
      rw [addEffectiveTimeFinish_pendingTime]
      split
      · rw [updActive_pendingTime]
        exact addCategoryTime_nodup cats st clock key _ hN
      · exact addCategoryTime_nodup cats st clock key _ hN
    · have he' : c.enabled = false := bool_eq_false_of_ne_true he
      unfold addEffectiveTime
      rw [hc]
      dsimp only
      simp [he']
      exact hN

/-! ## The capping arithmetic -/

theorem cappedSeconds_eq {c : Category} {L : Int} (hdl : c.dailyLimit = some L)
    (hL : 0 < L) (T s : Int) :
    cappedSeconds c T s = if s > max 0 (L - T) then max 0 (L - T) else s := by
  unfold cappedSeconds
  rw [hdl]
  dsimp only
  rw [if_pos hL]

theorem cappedSeconds_le {c : Category} {L T s : Int} (hdl : c.dailyLimit = some L)
    (hL : 0 < L) (hT : T ≤ L) : T + cappedSeconds c T s ≤ L := by
  rw [cappedSeconds_eq hdl hL]
  have hm : max 0 (L - T) = L - T := max_eq_right (by omega)
  rw [hm]
  split <;> omega

theorem cappedSeconds_lands {c : Category} {L T s : Int} (hdl : c.dailyLimit = some L)
    (hL : 0 < L) (hT : T ≤ L) (hs : max 0 (L - T) < s) :
    T + cappedSeconds c T s = L := by
  rw [cappedSeconds_eq hdl hL]
  have hm : max 0 (L - T) = L - T := max_eq_right (by omega)
  rw [hm] at hs ⊢
  rw [if_pos (by omega)]
  omega

/-! ## Reachability by accrual steps -/

theorem mergedTotal_initSt (today key : String) : mergedTotal initSt today key = 0 := rfl

/-- The inductive invariant behind the cap claim: along any sequence of
accrual steps the pending keys stay distinct and the merged daily total of
a limited category never exceeds its limit. -/
theorem reachAdd_inv (cats : CatMap) (today key : String) (c : Category) (L : Int)
    (hc : alookup cats key = some c) (hdl : c.dailyLimit = some L) (hL : 0 < L)
    {st : St} (h : Relation.ReflTransGen (AddStep cats today) initSt st) :
    NodupKeys st.pendingTime ∧ mergedTotal st today key ≤ L := by
  induction h with
  | refl =>
    refine ⟨nodupKeys_nil, ?_⟩
    rw [mergedTotal_initSt]
    omega
  | tail _ hbc ih =>
    obtain ⟨k2, s2, clock, hck, hs2, rfl⟩ := hbc
    refine ⟨addEffectiveTime_nodup _ _ _ _ _ ih.1, ?_⟩
    rw [← hck] at ih ⊢
    rw [mergedTotal_addEffectiveTime _ _ _ _ _ ih.1 key]
    by_cases hkk : k2 = key
    · subst hkk
      rw [hc]
      dsimp only
      by_cases he : c.enabled = true
      · rw [if_pos ⟨he, rfl⟩]
        exact cappedSeconds_le hdl hL ih.2
      · rw [if_neg (fun hand => he hand.1)]
        omega
    · cases hcc : alookup cats k2 with
      | none => simpa using ih.2
      | some c2 =>
        dsimp only
        rw [if_neg (fun hand => hkk hand.2)]
        simpa using ih.2

/-! ## Claim C1 -/

/-- C1: for every category with a daily limit L > 0, after any sequence of
`addEffectiveTime` calls with non-negative reported seconds (starting from
the empty stores), the merged daily totalTime (committed storage plus
pending accrual) never strictly exceeds L; and a single further report
larger than the remaining headroom `max 0 (L - total)` lands the merged
total exactly at L. -/
theorem daily_cap_invariant (cats : CatMap) (today key : String) (c : Category) (L : Int)
    (hc : alookup cats key = some c) (hdl : c.dailyLimit = some L) (hL : 0 < L) :
    (∀ st, Relation.ReflTransGen (AddStep cats today) initSt st →
       mergedTotal st today key ≤ L) ∧
    (∀ st clock seconds, Relation.ReflTransGen (AddStep cats today) initSt st →
       clock.today = today → c.enabled = true → 0 ≤ seconds →
       max 0 (L - mergedTotal st today key) < seconds →
       mergedTotal (addEffectiveTime cats st clock key seconds).2 today key = L) := by
  constructor
  · intro st h
    exact (reachAdd_inv cats today key c L hc hdl hL h).2
  · intro st clock seconds h hck he hs hover
    obtain ⟨hN, hle⟩ := reachAdd_inv cats today key c L hc hdl hL h
    subst hck
    rw [mergedTotal_addEffectiveTime _ _ _ _ _ hN key, hc]
    dsimp only
    rw [if_pos ⟨he, rfl⟩]
    exact cappedSeconds_lands hdl hL hle hover

/-- Witness for C1: from the initial state (merged total 0, headroom 100),
a 150-second report lands the merged total exactly at the limit 100. -/
theorem daily_cap_invariant_witness :
    mergedTotal (addEffectiveTime catsC1 initSt clockC1 "video" 150).2 "d1" "video" = 100 :=
  (daily_cap_invariant catsC1 "d1" "video" ⟨true, some 100, none, none, none, []⟩ 100
      rfl rfl (by decide)).2
    initSt clockC1 150 Relation.ReflTransGen.refl rfl rfl (by decide) (by decide)

/-! ## Claim C2 -/

/-- C2 counterexample: a report of -5 seconds to an enabled category with
merged total 10 is not a no-op — it decreases the merged daily total to 5
(the code has no negative-seconds clamp). -/
theorem negative_seconds_mutate :
    mergedTotal stC2 "d1" "video" = 10 ∧
    mergedTotal (addEffectiveTime catsC2 stC2 clockC2 "video" (-5)).2 "d1" "video" = 5 := by
  decide

/-- C2 amended: for every enabled category, a report of 0 or negative
seconds passes the daily-limit cap unchanged, and the merged daily total
changes by exactly the reported amount — unchanged for a 0-second report,
decreased for a negative one (no state-mutation-free clamp exists). -/
theorem nonpositive_seconds_add_uncapped (cats : CatMap) (st : St) (clock : Clock)
    (key : String) (seconds : Int) (c : Category)
    (hc : alookup cats key = some c) (he : c.enabled = true)
    (hN : NodupKeys st.pendingTime) (hs : seconds ≤ 0) :
    mergedTotal (addEffectiveTime cats st clock key seconds).2 clock.today key =
      mergedTotal st clock.today key + seconds := by
  rw [mergedTotal_addEffectiveTime _ _ _ _ _ hN key, hc]
  dsimp only
  rw [if_pos ⟨he, rfl⟩]
  congr 1
  unfold cappedSeconds
  cases hdl : c.dailyLimit with
  | none => rfl
  | some dl =>
    dsimp only
    split
    · have h0 : (0:Int) ≤ max 0 (dl - mergedTotal st clock.today key) := le_max_left _ _
      rw [if_neg (by omega)]
    · rfl

/-- Witness for C2's amended statement at the counterexample state. -/
theorem nonpositive_seconds_add_uncapped_witness :
    mergedTotal (addEffectiveTime catsC2 stC2 clockC2 "video" (-5)).2 "d1" "video" =
      mergedTotal stC2 "d1" "video" + (-5) :=
  nonpositive_seconds_add_uncapped catsC2 stC2 clockC2 "video" (-5) _
    rfl rfl nodupKeys_nil (by decide)

/-! ## Claim C5 -/

/-- C5: with dailyLimit 3600, merged total 3598 and no session in
progress, a 10-second report commits exactly 2 seconds (total becomes
3600) and returns the `daily_limit_reached` denial with allowed=false. -/
theorem daily_limit_scenario :
    mergedTotal stC5 "d1" "video" = 3598 ∧
    (addEffectiveTime catsC5 stC5 clockC5 "video" 10).1 =
      .dailyLimitReached 3600 3600 ∧
    mergedTotal (addEffectiveTime catsC5 stC5 clockC5 "video" 10).2 "d1" "video" = 3600 := by
  decide

/-! ## Claims C3 and C4 -/

/-- C3: for a category with a truthy sessionDuration d and an open session,
after any `addEffectiveTime` call (i) a session that remains open has
sessionEffectiveTime at most d (in fact strictly below), and (ii) a call
whose capped addition makes sessionEffectiveTime reach or cross d closes
the session in that same call, returning the `session_limit_reached`
denial (whose return object hard-codes restStarted, i.e. rest was
triggered via `endSession(key, true)`). -/
theorem session_cap_invariant (cats : CatMap) (st : St) (clock : Clock) (key : String)
    (seconds : Int) (c : Category) (d : Int)
    (hc : alookup cats key = some c) (he : c.enabled = true)
    (hd : c.sessionDuration = some d) (hd0 : d ≠ 0)
    (hin : (getCategoryActiveState st key).inSession = true) :
    ((getCategoryActiveState (addEffectiveTime cats st clock key seconds).2 key).inSession = true →
      (getCategoryActiveState (addEffectiveTime cats st clock key seconds).2 key).sessionEffectiveTime ≤ d) ∧
    (d ≤ (getCategoryActiveState st key).sessionEffectiveTime +
          cappedSeconds c (mergedTotal st clock.today key) seconds →
      (addEffectiveTime cats st clock key seconds).1 =
        .sessionLimitReached c.restDuration
          ((getCategoryActiveState st key).sessionEffectiveTime +
            cappedSeconds c (mergedTotal st clock.today key) seconds) ∧
      (getCategoryActiveState (addEffectiveTime cats st clock key seconds).2 key).inSession = false) := by
  rw [addEffectiveTime_eq cats st clock key seconds c hc he]
  dsimp only
  rw [if_pos hin]
  dsimp only
  set toAdd := cappedSeconds c (mergedTotal st clock.today key) seconds with htoAdd
  set a0 := getCategoryActiveState st key with ha0
  set n := a0.sessionEffectiveTime + toAdd with hnn
  set act := addCategoryTime cats st clock key toAdd with hact
  set st1 := updActive act.2 key (fun a => { a with sessionEffectiveTime := n }) with hst1
  have hga : getCategoryActiveState st1 key =
      { a0 with sessionEffectiveTime := n } := by
    rw [hst1, getActive_updActive_self, getActive_addCategoryTime]
  have hbne : (d != 0) = true := by simp [hd0]
  have hhit : sessionHitB c { a0 with sessionEffectiveTime := n } = decide (d ≤ n) := by
    unfold sessionHitB
    rw [hd]
    dsimp only
    rw [hbne]
    have : ({ a0 with sessionEffectiveTime := n }).inSession = true := hin
    rw [this]
    simp
  by_cases hd2 : d ≤ n
  · rw [addEffectiveTimeFinish_hit _ _ _ _ _ _ _ _ (by rw [hhit]; exact decide_eq_true hd2)]
    dsimp only
    constructor
    · intro hopen
      rw [endSession_inSession] at hopen
      exact absurd hopen (by simp)
    · intro _
      exact ⟨rfl, endSession_inSession _ _ _ _ _⟩
  · have hhitf : sessionHitB c { a0 with sessionEffectiveTime := n } = false := by
      rw [hhit]
      exact decide_eq_false hd2
    rw [addEffectiveTimeFinish_nohit _ _ _ _ _ _ _ _ hhitf]
    constructor
    · split
      · dsimp only
        intro hopen
        rw [endSession_inSession] at hopen
        exact absurd hopen (by simp)
      · dsimp only
        intro _
        rw [canAccess_sessionEffectiveTime, hga]
        dsimp only
        omega
    · intro hcontra
      exact absurd hcontra hd2

/-- Witness for C3: at sessionEffectiveTime 1795 of 1800, a 10-second
report crosses the session cap, closes the session and returns
`session_limit_reached` at 1805. -/
theorem session_cap_invariant_witness :
    (addEffectiveTime catsC3 stC3 clockC3 "video" 10).1 =
      .sessionLimitReached (some 600) 1805 ∧
    (getCategoryActiveState (addEffectiveTime catsC3 stC3 clockC3 "video" 10).2 "video").inSession
      = false :=
  (session_cap_invariant catsC3 stC3 clockC3 "video" 10 _ 1800
      rfl rfl rfl (by decide) rfl).2 (by decide)

/-- C4: when one capped report simultaneously reaches the session-duration
threshold and the daily limit, the returned denial is
`session_limit_reached` (the session-limit branch short-circuits before
the daily-limit branch), not `daily_limit_reached`. -/
theorem session_limit_priority (cats : CatMap) (st : St) (clock : Clock) (key : String)
    (seconds : Int) (c : Category) (d L : Int)
    (hc : alookup cats key = some c) (he : c.enabled = true)
    (hd : c.sessionDuration = some d) (hd0 : d ≠ 0)
    (hin : (getCategoryActiveState st key).inSession = true)
    (hsess : d ≤ (getCategoryActiveState st key).sessionEffectiveTime +
        cappedSeconds c (mergedTotal st clock.today key) seconds)
    (hdl : c.dailyLimit = some L) (hL0 : L ≠ 0)
    (hdaily : L ≤ mergedTotal st clock.today key +
        cappedSeconds c (mergedTotal st clock.today key) seconds) :
    (addEffectiveTime cats st clock key seconds).1 =
      .sessionLimitReached c.restDuration
        ((getCategoryActiveState st key).sessionEffectiveTime +
          cappedSeconds c (mergedTotal st clock.today key) seconds) := by
  rw [addEffectiveTime_eq cats st clock key seconds c hc he]
  dsimp only
  rw [if_pos hin]
  dsimp only
  set toAdd := cappedSeconds c (mergedTotal st clock.today key) seconds with htoAdd
  set a0 := getCategoryActiveState st key with ha0
  set n := a0.sessionEffectiveTime + toAdd with hnn
  have hbne : (d != 0) = true := by simp [hd0]
  have hhit : sessionHitB c { a0 with sessionEffectiveTime := n } = true := by
    unfold sessionHitB
    rw [hd]
    dsimp only
    rw [hbne]
    have h1 : ({ a0 with sessionEffectiveTime := n }).inSession = true := hin
    rw [h1]
    simpa using hsess
  rw [addEffectiveTimeFinish_hit _ _ _ _ _ _ _ _ hhit]

/-- Witness for C4: a 2000-second report is capped to the daily headroom
1805, which lands the daily total exactly at the limit 1900 and also
crosses the session cap 1800; the result is `session_limit_reached`. -/
theorem session_limit_priority_witness :
    (addEffectiveTime catsC4 stC4 clockC4 "video" 2000).1 =
      .sessionLimitReached (some 600) 3600 :=
  session_limit_priority catsC4 stC4 clockC4 "video" 2000 _ 1800 1900
    rfl rfl rfl (by decide) rfl (by decide) rfl (by decide) (by decide)

/-! ## Claim C6 -/

theorem flush_pendingTime_nil (st : St) (clock : Clock) :
    (flushPendingTimeUpdates st clock).pendingTime = [] := by
  unfold flushPendingTimeUpdates
  split
  · rename_i h
    exact h.1
  · rfl

theorem flush_pendingDomain_nil (st : St) (clock : Clock) :
    (flushPendingTimeUpdates st clock).pendingDomain = [] := by
  unfold flushPendingTimeUpdates
  split
  · rename_i h
    exact h.2
  · rfl

theorem resetFold_pendingTime (entries : List (String × ActiveState)) (st : St)
    (clock : Clock) :
    (entries.foldl
      (fun st p =>
        if p.2.inSession && truthyI p.2.sessionStart then
          (endCategorySessionForDate st clock p.1 clock.yesterday).2
        else st) st).pendingTime = st.pendingTime := by
  induction entries generalizing st with
  | nil => rfl
  | cons p rest ih =>
    simp only [List.foldl_cons]
    rw [ih]
    split
    · exact endCategorySessionForDate_pendingTime _ _ _ _
    · rfl

theorem resetFold_pendingDomain (entries : List (String × ActiveState)) (st : St)
    (clock : Clock) :
    (entries.foldl
      (fun st p =>
        if p.2.inSession && truthyI p.2.sessionStart then
          (endCategorySessionForDate st clock p.1 clock.yesterday).2
        else st) st).pendingDomain = st.pendingDomain := by
  induction entries generalizing st with
  | nil => rfl
  | cons p rest ih =>
    simp only [List.foldl_cons]
    rw [ih]
    split
    · exact endCategorySessionForDate_pendingDomain _ _ _ _
    · rfl

/-- After one daily reset the pending maps are flushed, the active states
cleared and the cache dropped. -/
theorem performDailyReset_state (st : St) (clock : Clock) :
    (performDailyReset st clock).pendingTime = [] ∧
    (performDailyReset st clock).pendingDomain = [] ∧
    (performDailyReset st clock).activeState = [] ∧
    (performDailyReset st clock).cacheUsage = none := by
  unfold performDailyReset clearActiveStates
  dsimp only
  refine ⟨?_, ?_, rfl, rfl⟩
  · rw [resetFold_pendingTime]
    exact flush_pendingTime_nil st clock
  · rw [resetFold_pendingDomain]
    exact flush_pendingDomain_nil st clock

/-- A state with empty pending maps, no active states and no cache is a
fixed point of the daily reset. -/
theorem performDailyReset_fix (st : St) (clock : Clock)
    (h1 : st.pendingTime = []) (h2 : st.pendingDomain = [])
    (h3 : st.activeState = []) (h4 : st.cacheUsage = none) :
    performDailyReset st clock = st := by
  have hf : flushPendingTimeUpdates st clock = st := by
    unfold flushPendingTimeUpdates
    rw [if_pos ⟨h1, h2⟩]
  unfold performDailyReset clearActiveStates
  dsimp only
  rw [hf, h3]
  dsimp only [List.foldl_nil]
  cases st
  simp_all

/-- C6: the daily rollover procedure is idempotent — starting from any
state, running `performDailyReset` twice (at any clocks) produces exactly
the state a single run produces: the second run closes no session again,
flushes nothing and clears nothing further. -/
theorem daily_reset_idempotent (st : St) (clock1 clock2 : Clock) :
    performDailyReset (performDailyReset st clock1) clock2 =
      performDailyReset st clock1 := by
  obtain ⟨h1, h2, h3, h4⟩ := performDailyReset_state st clock1
  exact performDailyReset_fix _ clock2 h1 h2 h3 h4

/-! ## Claim C7 -/

/-- C7: an ADD_TIME report from a tab that is not the registered
authoritative tab of its category, while a different (non-stale) tab is
registered, is answered with the skip object (`allowed:true, skipped:true,
reason not_active_tab`) and mutates neither the tab registry nor any
stored or pending accounting state — zero seconds accrue to the category
total, the per-domain total and the session effective time. -/
theorem not_active_tab_skip (cats : CatMap) (tabs : TabMap) (st : St) (clock : Clock)
    (key : String) (domain : Option String) (seconds : Int) (t : Int) (info : TabInfo)
    (hreg : alookup tabs key = some info) (hne : info.tabId ≠ t)
    (hfresh : clock.now - info.lastActivity ≤ 30000) :
    handleAddTime cats tabs st clock key domain seconds (some t) =
      (.skipped, tabs, st) := by
  have hact : isActiveTabForCategory tabs key (some t) = false := by
    unfold isActiveTabForCategory
    rw [hreg]
    simp [hne]
  unfold handleAddTime
  dsimp only
  rw [hact]
  simp only [Bool.false_eq_true, if_false]
  rw [hreg]

/-- Witness for C7: tab 2 reports while tab 1 (active 1 second ago) is
registered as authoritative — the report is skipped and nothing changes. -/
theorem not_active_tab_skip_witness :
    handleAddTime catsC7 tabsC7 stC7 clockC7 "video" (some "youtube.com") 5 (some 2) =
      (.skipped, tabsC7, stC7) :=
  not_active_tab_skip catsC7 tabsC7 stC7 clockC7 "video" (some "youtube.com") 5 2 _
    rfl (by decide) (by decide)

/-! ## Claim C8 -/

/-- C8: for an enabled category whose ActiveState has inRest=true with a
truthy restEnd, outside any forbidden period: while restEnd is in the
future `canAccessCategory` returns the `rest_period` denial carrying the
remaining seconds `ceil((restEnd - now)/1000)` and performs no mutation at
all; once restEnd has passed, the call clears exactly the rest flags
(inRest=false, restEnd=null) and evaluation continues with the daily-limit
and session-count checks (`accessAfterRest`) on that cleared state — so a
later call can return allowed=true. -/
theorem rest_period_check (cats : CatMap) (st : St) (clock : Clock) (key : String)
    (c : Category) (r : Int)
    (hc : alookup cats key = some c) (he : c.enabled = true)
    (hfp : isInForbiddenPeriod clock.minutes c.forbiddenPeriods = false)
    (hir : (getCategoryActiveState st key).inRest = true)
    (hre : (getCategoryActiveState st key).restEnd = some r) (hr0 : r ≠ 0) :
    (clock.now < r →
      canAccessCategory cats st clock key =
        (.restPeriod (ceilDiv1000 (r - clock.now)) r, st)) ∧
    (r ≤ clock.now →
      canAccessCategory cats st clock key =
        accessAfterRest c (getCategoryUsage st clock.today key)
          (getCategoryActiveState st key)
          (updActive st key (fun a => { a with inRest := false, restEnd := none })) ∧
      (getCategoryActiveState (canAccessCategory cats st clock key).2 key).inRest = false ∧
      (getCategoryActiveState (canAccessCategory cats st clock key).2 key).restEnd = none) := by
  have hcond : ((getCategoryActiveState st key).inRest && (r != 0)) = true := by
    rw [hir]
    simp [hr0]
  unfold canAccessCategory
  rw [hc]
  dsimp only
  simp only [he, Bool.not_true, Bool.false_eq_true, if_false]
  rw [hfp]
  simp only [Bool.false_eq_true, if_false]
  rw [hre]
  dsimp only
  rw [hcond]
  simp only [if_true]
  constructor
  · intro hlt
    rw [if_pos hlt]
  · intro hge
    rw [if_neg (not_lt.mpr hge)]
    refine ⟨rfl, ?_, ?_⟩ <;>
      rw [accessAfterRest_snd, getActive_updActive_self]

/-- Witness for C8: with restEnd 120 seconds in the future the call
returns `rest_period` with restRemaining 120 and an unchanged state; after
restEnd has passed the call clears the rest flags, and that same call
already returns allowed=true (no other limit applies). -/
theorem rest_period_check_witness :
    (canAccessCategory catsC8 stC8 clockC8 "video" =
      (.restPeriod 120 1120000, stC8)) ∧
    ((getCategoryActiveState (canAccessCategory catsC8 stC8 clockC8b "video").2 "video").inRest
        = false) ∧
    ((canAccessCategory catsC8 stC8 clockC8b "video").1).allowed = true := by
  refine ⟨?_, ?_, by decide⟩
  · exact (rest_period_check catsC8 stC8 clockC8 "video" _ 1120000
      rfl rfl rfl rfl rfl (by decide)).1 (by decide)
  · exact ((rest_period_check catsC8 stC8 clockC8b "video" _ 1120000
      rfl rfl rfl rfl rfl (by decide)).2 (by decide)).2.1

/-! ## Claim C9 -/

theorem mutex_of_activeState_eq {st st' : St} (h : st'.activeState = st.activeState)
    (hm : MutexInv st) : MutexInv st' := by
  intro k
  unfold getCategoryActiveState
  rw [h]
  exact hm k

theorem mutex_canAccess (cats : CatMap) (st : St) (clock : Clock) (key : String)
    (h : MutexInv st) : MutexInv (canAccessCategory cats st clock key).2 := by
  rcases canAccess_snd_cases cats st clock key with hc | hc <;> rw [hc]
  · exact h
  · intro k2
    by_cases hk : key = k2
    · subst hk
      rw [getActive_updActive_self]
      exact Or.inr rfl
    · rw [getActive_updActive_ne _ _ _ hk]
      exact h k2

theorem mutex_endSession (cats : CatMap) (st : St) (clock : Clock) (key : String)
    (tr : Bool) (h : MutexInv st) : MutexInv (endSession cats st clock key tr).2 := by
  intro k2
  by_cases hk : key = k2
  · subst hk
    exact Or.inl (endSession_inSession cats st clock key tr)
  · rw [endSession_getActive_ne _ _ _ _ _ hk]
    exact h k2

theorem mutex_updActive_sessionEff (st : St) (k : String) (n : Int)
    (h : MutexInv st) :
    MutexInv (updActive st k (fun a => { a with sessionEffectiveTime := n })) := by
  intro k2
  by_cases hk : k = k2
  · subst hk
    rw [getActive_updActive_self]
    exact h _
  · rw [getActive_updActive_ne _ _ _ hk]
    exact h _

theorem mutex_addEffectiveTimeFinish (cats : CatMap) (st : St) (clock : Clock)
    (key : String) (c : Category) (u : UsageView) (a : ActiveState) (sA : Int)
    (h : MutexInv st) :
    MutexInv (addEffectiveTimeFinish cats st clock key c u a sA).2 := by
  rcases addEffectiveTimeFinish_snd_cases cats st clock key c u a sA with h1 | h1 | h1 <;>
    rw [h1]
  · exact mutex_endSession cats st clock key true h
  · exact mutex_endSession cats st clock key false h
  · exact mutex_canAccess cats st clock key h

theorem mutex_addEffectiveTime (cats : CatMap) (st : St) (clock : Clock) (key : String)
    (seconds : Int) (h : MutexInv st) :
    MutexInv (addEffectiveTime cats st clock key seconds).2 := by
  cases hc : alookup cats key with
  | none =>
    unfold addEffectiveTime
    rw [hc]
    exact h
  | some c =>
    by_cases he : c.enabled = true
    · rw [addEffectiveTime_eq cats st clock key seconds c hc he]
      dsimp only
      apply mutex_addEffectiveTimeFinish
      have hact : MutexInv (addCategoryTime cats st clock key
          (cappedSeconds c (mergedTotal st clock.today key) seconds)).2 :=
        mutex_of_activeState_eq (addCategoryTime_activeState _ _ _ _ _) h
      split
      · exact mutex_updActive_sessionEff _ _ _ hact
      · exact hact
    · have he' : c.enabled = false := bool_eq_false_of_ne_true he
      unfold addEffectiveTime
      rw [hc]
      dsimp only
      simp only [he', Bool.not_false, if_true]
      exact h

theorem startCategorySession_activeState (st : St) (clock : Clock) (key : String) :
    (startCategorySession st clock key).activeState = st.activeState := rfl

theorem mutex_startSession (cats : CatMap) (st : St) (clock : Clock) (key : String)
    (h : MutexInv st) : MutexInv (startSession cats st clock key).2 := by
  unfold startSession
  dsimp only
  split
  · exact mutex_canAccess cats st clock key h
  · split
    · exact mutex_canAccess cats st clock key h
    · intro k2
      by_cases hk : key = k2
      · subst hk
        rw [getActive_updActive_self]
        exact Or.inr rfl
      · rw [getActive_updActive_ne _ _ _ hk]
        have hca := mutex_canAccess cats st clock key h
        exact mutex_of_activeState_eq
          (startCategorySession_activeState (canAccessCategory cats st clock key).2 clock key)
          hca k2

theorem mutex_checkRestStep (clock : Clock) (acc : List String × St)
    (p : String × Category) (h : MutexInv acc.2) :
    MutexInv (checkRestStep clock acc p).2 := by
  unfold checkRestStep
  dsimp only
  split
  · split
    · intro k2
      by_cases hk : p.1 = k2
      · subst hk
        rw [getActive_updActive_self]
        exact Or.inr rfl
      · rw [getActive_updActive_ne _ _ _ hk]
        exact h k2
    · exact h
  · exact h

theorem mutex_checkRestPeriods (cats : CatMap) (st : St) (clock : Clock)
    (h : MutexInv st) : MutexInv (checkRestPeriods cats st clock).2 := by
  unfold checkRestPeriods
  have H : ∀ (l : CatMap) (acc : List String × St), MutexInv acc.2 →
      MutexInv (l.foldl (checkRestStep clock) acc).2 := by
    intro l
    induction l with
    | nil => intro acc ha; exact ha
    | cons p rest ih =>
      intro acc ha
      simp only [List.foldl_cons]
      exact ih _ (mutex_checkRestStep clock acc p ha)
  exact H cats ([], st) h

theorem mutex_performDailyReset (st : St) (clock : Clock) :
    MutexInv (performDailyReset st clock) := by
  intro k
  unfold getCategoryActiveState
  rw [(performDailyReset_state st clock).2.2.1]
  exact Or.inl rfl

/-- C9: in every state reachable from the initial (empty) state through
the core's mutating operations, no category has inSession and inRest both
true. -/
theorem session_rest_mutex (cats : CatMap) {st : St}
    (h : Relation.ReflTransGen (fun a b => CoreStep cats a b) initSt st) :
    MutexInv st := by
  induction h with
  | refl => intro k; exact Or.inl rfl
  | tail _ hbc ih =>
    cases hbc with
    | start clock key => exact mutex_startSession cats _ clock key ih
    | stop clock key tr => exact mutex_endSession cats _ clock key tr ih
    | add clock key seconds => exact mutex_addEffectiveTime cats _ clock key seconds ih
    | access clock key => exact mutex_canAccess cats _ clock key ih
    | rests clock => exact mutex_checkRestPeriods cats _ clock ih
    | reset clock => exact mutex_performDailyReset _ clock

/-- Witness for C9: one `endSession(triggerRest=true)` step from the
initial state (which starts a rest with no session open) still satisfies
the exclusivity invariant. -/
theorem session_rest_mutex_witness :
    MutexInv (endSession catsC8 initSt clockC8 "video" true).2 :=
  session_rest_mutex catsC8
    (Relation.ReflTransGen.single (CoreStep.stop clockC8 "video" true))

/-! ## Claim C10 -/

theorem endCategorySessionForDate_noop (st : St) (clock : Clock) (key dateKey : String)
    (h : lastOpenB (((alookup ((alookup st.usage dateKey).getD []) key).getD
        emptyCategoryUsage).sessions) = false) :
    endCategorySessionForDate st clock key dateKey = (none, st) := by
  unfold endCategorySessionForDate
  split
  · rfl
  · rename_i day hday
    rw [hday] at h
    simp only [Option.getD_some] at h
    split
    · rfl
    · rename_i cu hcu
      rw [hcu] at h
      simp only [Option.getD_some] at h
      split
      · rfl
      · rename_i lastSession hlast
        unfold lastOpenB at h
        rw [hlast] at h
        simp only [Bool.not_eq_false'] at h
        rw [if_pos h]

/-- C10: `endSession` on a category with no open session record still
returns success:true (for either value of triggerRest); with
triggerRest=true and a truthy restDuration it additionally reports
restStarted=true, leaves the usage log untouched, and puts the category
into a rest period with restEnd = now + restDuration * 1000 even though no
session existed to close. -/
theorem endSession_no_open_session (cats : CatMap) (st : St) (clock : Clock)
    (key : String) (c : Category) (rd : Int)
    (hc : alookup cats key = some c) (hrd : c.restDuration = some rd) (hrd0 : rd ≠ 0)
    (hnoopen : lastOpenB (((alookup ((alookup st.usage clock.today).getD []) key).getD
        emptyCategoryUsage).sessions) = false) :
    (∀ tr, ((endSession cats st clock key tr).1).success = true) ∧
    (endSession cats st clock key true).1 =
      ⟨true, true, some (clock.now + rd * 1000)⟩ ∧
    (endSession cats st clock key true).2.usage = st.usage ∧
    getCategoryActiveState (endSession cats st clock key true).2 key =
      { getCategoryActiveState st key with
          inSession := false, sessionStart := none,
          inRest := true, restEnd := some (clock.now + rd * 1000) } := by
  have hend : endCategorySession st clock key = (none, st) :=
    endCategorySessionForDate_noop st clock key clock.today hnoopen
  have hrdof : restDurationOf cats key = some rd := by
    unfold restDurationOf
    rw [hc]
    dsimp only
    exact hrd
  have hcond : (true && truthyI (restDurationOf cats key)) = true := by
    rw [hrdof]
    unfold truthyI
    simp [hrd0]
  refine ⟨?_, ?_, ?_, ?_⟩
  · intro tr
    unfold endSession
    dsimp only
    split
    · rfl
    · rfl
  · unfold endSession
    dsimp only
    rw [if_pos hcond, hrdof]
    rfl
  · unfold endSession
    dsimp only
    rw [if_pos hcond, hend]
    rfl
  · unfold endSession
    dsimp only
    rw [if_pos hcond, hend, hrdof, getActive_updActive_self]
    rfl

/-- Witness for C10: with only a closed session on record, ending the
session with triggerRest=true succeeds and imposes a 600-second rest
ending at now + 600000 ms. -/
theorem endSession_no_open_session_witness :
    (endSession catsC10 stC10 clockC10 "video" true).1 =
      ⟨true, true, some 1600000⟩ ∧
    (endSession catsC10 stC10 clockC10 "video" true).2.usage = stC10.usage ∧
    (getCategoryActiveState (endSession catsC10 stC10 clockC10 "video" true).2 "video").inRest
      = true :=
  have h := endSession_no_open_session catsC10 stC10 clockC10 "video" _ 600
    rfl rfl (by decide) (by decide)
  ⟨h.2.1, h.2.2.1, by rw [h.2.2.2]⟩

end VTT
